import Mathlib

/-!
# Verification of the wine-podcast-directory CSV import pipeline

Shallow embedding of the CSV import and deduplication pipeline of the
wine-podcast-directory repository (server routes import handler, storage
deduplication key, merge partition, sequential updates) together with the
login backoff helper.

Strings are modelled as lists of character codes (`Str := List Nat`), with
ASCII semantics for the JavaScript string operations used in the source
(`toLowerCase`, `trim`, regex whitespace/punctuation classes, `parseInt`).
Each definition is translated from the corresponding source function; the
source location is given in its doc comment.
-/

/-- A string, modelled as its list of character codes. -/
abbrev Str := List Nat

/-- Character codes of a Lean string literal (convenience constructor). -/
def str (s : String) : Str := s.data.map Char.toNat

/-- JavaScript `\s` / `trim` whitespace class, restricted to ASCII:
tab, LF, VT, FF, CR, space. -/
def isWsCode (c : Nat) : Bool :=
  c == 9 || c == 10 || c == 11 || c == 12 || c == 13 || c == 32

/-- ASCII model of JavaScript `toLowerCase` on one character code. -/
def lowerCode (c : Nat) : Nat :=
  if 65 ≤ c ∧ c ≤ 90 then c + 32 else c

/-- `String.prototype.toLowerCase`, ASCII model. -/
def strLower (s : Str) : Str := s.map lowerCode

/-- Drop leading whitespace (left half of `String.prototype.trim`). -/
def trimLeft (s : Str) : Str := s.dropWhile isWsCode

/-- Drop trailing whitespace (right half of `String.prototype.trim`). -/
def trimRight (s : Str) : Str := (trimLeft s.reverse).reverse

/-- `String.prototype.trim`: drop whitespace at both ends. -/
def trimStr (s : Str) : Str := trimRight (trimLeft s)

/-- `replace(/\s+/g, ' ')`: collapse every maximal run of whitespace to a
single space. -/
def collapseWs : Str → Str
  | [] => []
  | [c] => if isWsCode c then [32] else [c]
  | c :: d :: rest =>
    if isWsCode c then
      if isWsCode d then collapseWs (d :: rest)
      else 32 :: collapseWs (d :: rest)
    else c :: collapseWs (d :: rest)

/-- The punctuation class of `replace(/[,.!?;:"'()\[\]\x7b\x7d]/g, '')`:
comma, period, bang, question, semicolon, colon, double quote, single
quote, parentheses, square brackets, curly braces. -/
def isPunctCode (c : Nat) : Bool :=
  c == 44 || c == 46 || c == 33 || c == 63 || c == 59 || c == 58 ||
  c == 34 || c == 39 || c == 40 || c == 41 || c == 91 || c == 93 ||
  c == 123 || c == 125

/-- `replace(/[,.!?;:"'()\[\]\x7b\x7d]/g, '')`: delete punctuation. -/
def stripPunct (s : Str) : Str := s.filter (fun c => !isPunctCode c)

/-- Does `w` (already lowercase) match the start of `s` case-insensitively,
followed immediately by a whitespace character (the `\s+` of the article
regex)? -/
def artMatch (w : Str) (s : Str) : Bool :=
  ((s.take w.length).map lowerCode == w) && (match s.drop w.length with
    | c :: _ => isWsCode c
    | [] => false)

/-- Trigger condition of `replace(/^(the|a|an)\s+/i, '')`. -/
def hasLeadingArticle (s : Str) : Bool :=
  artMatch [116, 104, 101] s || artMatch [97] s || artMatch [97, 110] s

/-- `replace(/^(the|a|an)\s+/i, '')`: strip one leading article together
with the whitespace run that follows it.  Alternatives are tried in regex
order (`the`, then `a`, then `an`), and the greedy `\s+` consumes the whole
whitespace run. -/
def stripArticle (s : Str) : Str :=
  if artMatch [116, 104, 101] s then (s.drop 3).dropWhile isWsCode
  else if artMatch [97] s then (s.drop 1).dropWhile isWsCode
  else if artMatch [97, 110] s then (s.drop 2).dropWhile isWsCode
  else s

/-- The `normalize` closure inside `createDeduplicationKey`
(server storage, `part_006` lines 177-192): lowercase, trim, collapse
whitespace runs, delete punctuation, strip one leading article, trim. -/
def normalizeStr (s : Str) : Str :=
  trimStr (stripArticle (stripPunct (collapseWs (trimStr (strLower s)))))

/-- `createDeduplicationKey(title, host)` (server storage, `part_006`
lines 177-192): the identity key `normalize(title) + "|||" + normalize(host)`. -/
def createDeduplicationKey (title : Str) (host : Str) : Str :=
  normalizeStr title ++ [124, 124, 124] ++ normalizeStr host

/-- Is `c` an ASCII decimal digit code? -/
def isDigitCode (c : Nat) : Bool := 48 ≤ c && c ≤ 57

/-- Numeric value of a list of decimal digit codes (most significant first). -/
def digitsVal (s : Str) : Nat := s.foldl (fun acc d => acc * 10 + (d - 48)) 0

/-- Fuel-driven decimal rendering of a natural number (helper for `natStr`). -/
def natStrAux : Nat → Nat → Str
  | 0, _ => []
  | fuel + 1, n => if n < 10 then [48 + n] else natStrAux fuel (n / 10) ++ [48 + n % 10]

/-- `String(n)` for a natural number: its decimal digit codes. -/
def natStr (n : Nat) : Str := natStrAux (n + 1) n

/-- Take the leading run of decimal digits and return its value, or `none`
when the run is empty (the `NaN` case of `parseInt`). -/
def digitsRun (s : Str) : Option Nat :=
  match s.takeWhile isDigitCode with
  | [] => none
  | run => some (digitsVal run)

/-- Model of JavaScript `parseInt(s)` (radix 10): skip leading whitespace,
read an optional sign, then the leading run of decimal digits; `none`
models `NaN` (no digits). -/
def parseIntM (s : Str) : Option Int :=
  match trimLeft s with
  | [] => none
  | c :: rest =>
    if c == 45 then (digitsRun rest).map (fun v => -(v : Int))
    else if c == 43 then (digitsRun rest).map (fun v => (v : Int))
    else (digitsRun (c :: rest)).map (fun v => (v : Int))

/-- A parsed CSV data row: association list from header name to cell value,
in header order, as produced by `csv-parser`. -/
abbrev RawRow := List (Str × Str)

/-- JavaScript `row[colName]`: the value stored under an exactly matching
key, if any. -/
def lookupRow (row : RawRow) (k : Str) : Option Str :=
  (row.find? (fun p => p.1 == k)).map (·.2)

/-- One iteration of the `getColumnValue` loop (import handler, `part_005`
lines 118-134) for a single candidate header name: exact key match with a
non-empty trimmed value wins; otherwise the first key of the row that
matches case-insensitively is used, provided its value is truthy and trims
non-empty; otherwise this candidate yields nothing. -/
def tryCandidate (row : RawRow) (colName : Str) : Option Str :=
  match lookupRow row colName with
  | some v =>
    if trimStr v ≠ [] then some (trimStr v)
    else
      match row.find? (fun p => strLower p.1 == strLower colName) with
      | some q => if q.2 ≠ [] ∧ trimStr q.2 ≠ [] then some (trimStr q.2) else none
      | none => none
  | none =>
    match row.find? (fun p => strLower p.1 == strLower colName) with
    | some q => if q.2 ≠ [] ∧ trimStr q.2 ≠ [] then some (trimStr q.2) else none
    | none => none

/-- `getColumnValue(columnNames)` (import handler, `part_005` lines
118-134): walk the candidate names in order; for each one try an exact
match and then a case-insensitive match before moving to the next
candidate; `undefined` (here `none`) when every candidate fails. -/
def getColumnValue (row : RawRow) : List Str → Option Str
  | [] => none
  | colName :: rest =>
    match tryCandidate row colName with
    | some v => some v
    | none => getColumnValue row rest

/-- The column resolver as the specification words it: first scan every
candidate for an exact-key non-empty match, and only if that whole pass
fails fall back to a case-insensitive scan.  Used solely to compare the
spec's description against `getColumnValue`. -/
def getColumnValueSpec (row : RawRow) (names : List Str) : Option Str :=
  match names.findSome? (fun colName =>
      match lookupRow row colName with
      | some v => if trimStr v ≠ [] then some (trimStr v) else none
      | none => none) with
  | some v => some v
  | none =>
    names.findSome? (fun colName =>
      match row.find? (fun p => strLower p.1 == strLower colName) with
      | some q => if q.2 ≠ [] ∧ trimStr q.2 ≠ [] then some (trimStr q.2) else none
      | none => none)

/-- Candidate headers for the title field (`part_005` lines 137-139). -/
def titleCandidates : List Str :=
  [str "Podcast Title", str "title", str "Title", str "TITLE",
   str "podcast_title", str "name", str "Name"]

/-- Candidate headers for the host field (`part_005` lines 141-143). -/
def hostCandidates : List Str :=
  [str "Podcast Host(s)", str "host", str "Host", str "HOST",
   str "hosts", str "Hosts", str "podcast_host"]

/-- Candidate headers for the country field (`part_005` lines 145-147). -/
def countryCandidates : List Str :=
  [str "Country of Production", str "country", str "Country", str "COUNTRY",
   str "nation", str "location"]

/-- Candidate headers for the language field (`part_005` lines 149-154). -/
def languageCandidates : List Str :=
  [str "Primary Language(s) of the Podcast", str "Primary Language(s)",
   str "language", str "Language", str "LANGUAGE", str "lang", str "languages",
   str "Lingua", str "lingua", str "LINGUA", str "linguaggio", str "Linguaggio",
   str "idioma", str "idiomas", str "Primary Language", str "primary_language",
   str "main_language", str "podcast_language", str "spoken_language",
   str "audio_language"]

/-- Candidate headers for the launch-year field (`part_005` lines 156-158). -/
def yearCandidates : List Str :=
  [str "Year Launched", str "year", str "Year", str "YEAR",
   str "launch_year", str "start_year"]

/-- Candidate headers for the status field (`part_005` lines 160-162). -/
def statusCandidates : List Str :=
  [str "Is the podcast currently active?", str "Is currently active?",
   str "status", str "Status", str "STATUS", str "active", str "Active"]

/-- Candidate headers for the categories field (`part_005` lines 164-166). -/
def categoriesCandidates : List Str :=
  [str "Categories", str "categories", str "Category", str "category",
   str "CATEGORIES", str "genre", str "genres"]

/-- Candidate headers for the episode-length field (`part_005` lines 168-170). -/
def episodeLengthCandidates : List Str :=
  [str "Typical Episode Length", str "Episode Length", str "episodeLength",
   str "episode_length", str "length", str "duration"]

/-- Candidate headers for the episode-count field (`part_005` lines 172-174). -/
def episodesCandidates : List Str :=
  [str "Number of episodes of your podcast published to date", str "Episodes",
   str "episodes", str "episode_count", str "total_episodes"]

/-- Candidate headers for the description field (`part_005` lines 176-178). -/
def descriptionCandidates : List Str :=
  [str "One-sentence description for the directory listing", str "Description",
   str "description", str "desc", str "about", str "summary"]

/-- Candidate headers for the logo field (`part_005` lines 180-182). -/
def imageUrlCandidates : List Str :=
  [str "Logo", str "logo", str "LOGO", str "image", str "Image",
   str "imageUrl", str "image_url", str "podcast_logo"]

/-- Candidate headers for the Spotify link (`part_005` line 210). -/
def spotifyCandidates : List Str :=
  [str "Spotify Link", str "Spotify URL", str "spotify", str "Spotify",
   str "spotify_url"]

/-- Candidate headers for the Instagram link (`part_005` line 211). -/
def instagramCandidates : List Str :=
  [str "Instagram @", str "Instagram URL", str "instagram", str "Instagram",
   str "instagram_url"]

/-- Candidate headers for the YouTube link (`part_005` line 212). -/
def youtubeCandidates : List Str :=
  [str "YouTube Link", str "YouTube URL", str "youtube", str "Youtube",
   str "youtube_url"]

/-- Candidate headers for the website link (`part_005` line 213). -/
def websiteCandidates : List Str :=
  [str "Website", str "Website URL", str "website", str "site", str "url"]

/-- `categoriesStr.split(',')`: split on commas, keeping empty segments. -/
def splitComma : Str → List Str
  | [] => [[]]
  | 44 :: rest => [] :: splitComma rest
  | c :: rest =>
    match splitComma rest with
    | [] => [[c]]
    | seg :: segs => (c :: seg) :: segs

/-- JSON string escaping of one character code (double quote and
backslash), a shallow model of what `JSON.stringify` does to cell text. -/
def jsonEscape (c : Nat) : Str :=
  if c == 34 || c == 92 then [92, c] else [c]

/-- Shallow model of `JSON.stringify(row)` for a row of string cells:
`\x7b"k":"v",...\x7d`.  Only used as opaque text inside error messages. -/
def jsonOfRow (row : RawRow) : Str :=
  123 :: (List.intercalate [44]
    (row.map (fun p =>
      [34] ++ p.1.flatMap jsonEscape ++ [34, 58, 34] ++ p.2.flatMap jsonEscape ++ [34]))) ++ [125]

/-- The `socialLinks` object built by the import handler (`part_005` lines
209-214). -/
structure SocialLinks where
  spotify : Option Str
  instagram : Option Str
  youtube : Option Str
  website : Option Str
deriving Repr, DecidableEq

/-- An `InsertPodcast` as assembled by the import handler (`part_005`
lines 198-216): the validated candidate record prior to persistence. -/
structure InsertPodcast where
  title : Str
  host : Str
  country : Str
  language : Str
  year : Int
  status : Str
  categories : List Str
  episodeLength : Option Str
  episodes : Option Str
  description : Option Str
  socialLinks : SocialLinks
  imageUrl : Option Str
deriving Repr, DecidableEq

/-- A persisted `Podcast` row (shared schema `podcasts` table): an
`InsertPodcast` plus its generated id. -/
structure Podcast where
  id : Str
  title : Str
  host : Str
  country : Str
  language : Str
  year : Int
  status : Str
  categories : List Str
  episodeLength : Option Str
  episodes : Option Str
  description : Option Str
  socialLinks : SocialLinks
  imageUrl : Option Str
deriving Repr, DecidableEq

/-- The per-row body of the import handler's `data` callback (`part_005`
lines 116-226), minus the row-number bookkeeping: resolve each column,
apply the soft defaults (`Unknown`, `English`, current year, `Active`),
reject the row when title or host is missing, and otherwise build the
record that `insertPodcastSchema.parse` accepts unchanged (every field is
already of the schema's type).  `currentYear` stands for
`new Date().getFullYear()`. -/
def validateRow (currentYear : Nat) (row : RawRow) : Except Str InsertPodcast :=
  let title := getColumnValue row titleCandidates
  let host := getColumnValue row hostCandidates
  let country := (getColumnValue row countryCandidates).getD (str "Unknown")
  let language := (getColumnValue row languageCandidates).getD (str "English")
  let yearStr := (getColumnValue row yearCandidates).getD (natStr currentYear)
  let status := (getColumnValue row statusCandidates).getD (str "Active")
  let categoriesStr := (getColumnValue row categoriesCandidates).getD []
  let episodeLength := getColumnValue row episodeLengthCandidates
  let episodes := getColumnValue row episodesCandidates
  let description := getColumnValue row descriptionCandidates
  let imageUrl := getColumnValue row imageUrlCandidates
  match title with
  | none => Except.error (str "Missing title. Row data: " ++ jsonOfRow row)
  | some t =>
    match host with
    | none => Except.error (str "Missing host. Row data: " ++ jsonOfRow row)
    | some h =>
      let parsedYear := (parseIntM yearStr).getD (currentYear : Int)
      Except.ok
        { title := t
          host := h
          country := country
          language := language
          year := parsedYear
          status := status
          categories := ((splitComma categoriesStr).map trimStr).filter (· ≠ [])
          episodeLength := episodeLength
          episodes := episodes
          description := description
          socialLinks :=
            { spotify := getColumnValue row spotifyCandidates
              instagram := getColumnValue row instagramCandidates
              youtube := getColumnValue row youtubeCandidates
              website := getColumnValue row websiteCandidates }
          imageUrl := imageUrl }

/-- The streaming row loop (`part_005` lines 107-230) with `k` rows already
consumed: each row gets number `k + 1`; a valid row appends its record to
`podcasts`, an invalid one appends `"Row n: <message>"` to `errors`, and
processing always continues with the remaining rows. -/
def processRowsAux (currentYear : Nat) (k : Nat) : List RawRow → List InsertPodcast × List Str
  | [] => ([], [])
  | row :: rest =>
    let res := processRowsAux currentYear (k + 1) rest
    match validateRow currentYear row with
    | Except.ok p => (p :: res.1, res.2)
    | Except.error e => (res.1, (str "Row " ++ natStr (k + 1) ++ str ": " ++ e) :: res.2)

/-- The full row loop starting from `rowNumber = 0`. -/
def processRows (currentYear : Nat) (rows : List RawRow) : List InsertPodcast × List Str :=
  processRowsAux currentYear 0 rows

/-- `Map.prototype.get` over the `(key, id)` pairs inserted by
`existingMap.set` in insertion order: the value of the **last** `set` for
the key wins. -/
def mapGet (m : List (Str × Str)) (k : Str) : Option Str :=
  (m.reverse.find? (fun p => p.1 == k)).map (·.2)

/-- The duplicate partition of the import handler (`part_005` lines
246-263): walk the validated records in order and route each one by
whether its deduplication key is present in `existingMap`, giving
`(newPodcasts, duplicatesSkipped, podcastsToUpdate)`. -/
def planMerge (m : List (Str × Str)) (overwrite : Bool) :
    List InsertPodcast → List InsertPodcast × List InsertPodcast × List (InsertPodcast × Str)
  | [] => ([], [], [])
  | p :: rest =>
    let res := planMerge m overwrite rest
    match mapGet m (createDeduplicationKey p.title p.host) with
    | some existingId =>
      if overwrite then (res.1, res.2.1, (p, existingId) :: res.2.2)
      else (res.1, p :: res.2.1, res.2.2)
    | none => (p :: res.1, res.2.1, res.2.2)

/-- `DatabaseStorage.findPodcastsByTitleHost` (`part_006` lines 315-335):
of all persisted podcasts, those whose deduplication key occurs among the
keys of the given `(title, host)` pairs; `[]` for an empty pair list. -/
def findPodcastsByTitleHost (persisted : List Podcast) (pairs : List (Str × Str)) :
    List Podcast :=
  if pairs.isEmpty then []
  else
    let inputKeys := pairs.map (fun pr => createDeduplicationKey pr.1 pr.2)
    persisted.filter (fun pod => inputKeys.contains (createDeduplicationKey pod.title pod.host))

/-- The sequential update loop (`part_005` lines 270-276): call the storage
update for each `(podcast, existingId)` entry in order; a `none` result
(the per-record catch in `DatabaseStorage.updatePodcast`, `part_006` lines
337-349) contributes nothing to `updatedPodcasts` and the loop continues. -/
def applyUpdates (updateFn : Str → InsertPodcast → Option Podcast) :
    List (InsertPodcast × Str) → List Podcast
  | [] => []
  | (p, existingId) :: rest =>
    match updateFn existingId p with
    | some updated => updated :: applyUpdates updateFn rest
    | none => applyUpdates updateFn rest

/-- Model of a successful bulk-insert of one record: the database returns
the row it stored (id generation abstracted to the empty id). -/
def toPodcast (p : InsertPodcast) : Podcast :=
  { id := []
    title := p.title
    host := p.host
    country := p.country
    language := p.language
    year := p.year
    status := p.status
    categories := p.categories
    episodeLength := p.episodeLength
    episodes := p.episodes
    description := p.description
    socialLinks := p.socialLinks
    imageUrl := p.imageUrl }

/-- The JSON report of the import endpoint (`part_005` lines 278-290).
The `headers` diagnostic passthrough is omitted: it is copied verbatim
from the parser's header event and never computed. -/
structure ImportReport where
  success : Bool
  imported : Nat
  duplicatesSkipped : Nat
  updated : Nat
  errors : Nat
  errorMessages : List Str
  totalRows : Nat
  podcasts : List Podcast
  updatedPodcasts : List Podcast
  overwriteMode : Bool
deriving Repr, DecidableEq

/-- The CSV import pipeline (`part_005` lines 93-290): stream the rows
through validation, look up persisted duplicates, partition into
create/update/skip, bulk-create the new records, sequentially update the
matched ones when overwriting, and assemble the report.  `updateFn` is the
storage collaborator's per-record update (`none` models its caught
failure); bulk create is modelled as returning one row per input record. -/
def runImport (rows : List RawRow) (persisted : List Podcast) (overwrite : Bool)
    (currentYear : Nat) (updateFn : Str → InsertPodcast → Option Podcast) : ImportReport :=
  let pr := processRows currentYear rows
  let pods := pr.1
  let errs := pr.2
  let titleHostPairs := pods.map (fun p => (p.title, p.host))
  let existingPodcasts := findPodcastsByTitleHost persisted titleHostPairs
  let existingMap := existingPodcasts.map
    (fun pod => (createDeduplicationKey pod.title pod.host, pod.id))
  let plan := planMerge existingMap overwrite pods
  let newPodcasts := plan.1
  let duplicatesSkipped := plan.2.1
  let podcastsToUpdate := plan.2.2
  let createdPodcasts := newPodcasts.map toPodcast
  let updatedPodcasts :=
    if overwrite = true ∧ 0 < podcastsToUpdate.length then
      applyUpdates updateFn podcastsToUpdate
    else []
  { success := true
    imported := createdPodcasts.length
    duplicatesSkipped := duplicatesSkipped.length
    updated := updatedPodcasts.length
    errors := errs.length
    errorMessages := errs.take 20
    totalRows := rows.length
    podcasts := createdPodcasts
    updatedPodcasts := updatedPodcasts
    overwriteMode := overwrite }

/-- `calculateBackoffDelay` (`part_006` lines 517-522): exponential login
backoff `2^(attempts-1)` seconds in milliseconds, capped at 15 minutes. -/
def calculateBackoffDelay (attemptCount : Nat) : Nat :=
  min (2 ^ (attemptCount - 1) * 1000) (15 * 60 * 1000)

/-- Does `needle` occur as a contiguous subsequence of `hay`? -/
def containsSeq (needle : Str) : Str → Bool
  | [] => needle.isEmpty
  | c :: rest => needle.isPrefixOf (c :: rest) || containsSeq needle rest

/-- No two adjacent whitespace characters. -/
def noDoubleWs : Str → Bool
  | [] => true
  | [_] => true
  | c :: d :: rest => !(isWsCode c && isWsCode d) && noDoubleWs (d :: rest)

example : str "ab C" = [97, 98, 32, 67] := by decide

example : natStr 2026 = str "2026" := by decide

example : parseIntM (str "  2026 ") = some 2026 := by decide

example : parseIntM (str "-12abc") = some (-12) := by decide

example : parseIntM (str "abc") = none := by decide

example :
    getColumnValue [(str "title", str "x")] titleCandidates = some (str "x") := by
  decide

example :
    getColumnValue [(str "TiTle", str " x ")] titleCandidates = some (str "x") := by
  decide

example : getColumnValue [(str "foo", str "x")] titleCandidates = none := by decide

example : normalizeStr (str "  The  Wine, Hour! ") = str "wine hour" := by decide

example : createDeduplicationKey (str "The Wine Hour") (str "JANE  Doe") =
    str "wine hour|||jane doe" := by decide

example : normalizeStr (str "x , y") = [120, 32, 32, 121] := by decide

example : normalizeStr (normalizeStr (str "x , y")) = [120, 32, 121] := by decide

/-- A sample validated record, used to instantiate theorems at concrete
inputs. -/
def podA : InsertPodcast :=
  { title := str "Wine Talk"
    host := str "Jane"
    country := str "Unknown"
    language := str "English"
    year := 2020
    status := str "Active"
    categories := []
    episodeLength := none
    episodes := none
    description := none
    socialLinks := ⟨none, none, none, none⟩
    imageUrl := none }

/-- A sample persisted podcast with the same identity key as `podA`. -/
def existingPod : Podcast :=
  { id := str "p1"
    title := str "Wine Talk"
    host := str "Jane"
    country := str "Unknown"
    language := str "English"
    year := 2020
    status := str "Active"
    categories := []
    episodeLength := none
    episodes := none
    description := none
    socialLinks := ⟨none, none, none, none⟩
    imageUrl := none }

theorem isPrefixOf_append_self (a b : Str) : a.isPrefixOf (a ++ b) = true := by
  induction a with
  | nil => cases b <;> rfl
  | cons c t ih => simp [List.isPrefixOf, ih]

theorem containsSeq_append (a x b : Str) : containsSeq x (a ++ (x ++ b)) = true := by
  induction a with
  | nil =>
    cases x with
    | nil => cases b <;> simp [containsSeq, List.isPrefixOf]
    | cons c t => simp [containsSeq, isPrefixOf_append_self]
  | cons c t ih => simp [containsSeq, ih]

/-- Claim C10: the login backoff delay is monotonically nondecreasing in
the failed-attempt count, never exceeds 900000 ms (15 minutes), and equals
`2^(n-1)` seconds whenever that value is below the cap. -/
theorem claim_C10_backoff :
    (∀ n m, n ≤ m → calculateBackoffDelay n ≤ calculateBackoffDelay m) ∧
    (∀ n, calculateBackoffDelay n ≤ 900000) ∧
    (∀ n, 2 ^ (n - 1) * 1000 ≤ 900000 → calculateBackoffDelay n = 2 ^ (n - 1) * 1000) := by
  refine ⟨?_, ?_, ?_⟩
  · intro n m h
    unfold calculateBackoffDelay
    exact min_le_min
      (Nat.mul_le_mul_right 1000
        (Nat.pow_le_pow_right (by norm_num) (Nat.sub_le_sub_right h 1)))
      (le_refl _)
  · intro n
    unfold calculateBackoffDelay
    omega
  · intro n h
    unfold calculateBackoffDelay
    omega

theorem claim_C10_witness :
    (3 ≤ 5 ∧ calculateBackoffDelay 3 ≤ calculateBackoffDelay 5) ∧
    calculateBackoffDelay 12 ≤ 900000 ∧
    (2 ^ (4 - 1) * 1000 ≤ 900000 ∧ calculateBackoffDelay 4 = 2 ^ (4 - 1) * 1000) := by
  refine ⟨⟨by decide, claim_C10_backoff.1 3 5 (by decide)⟩,
    claim_C10_backoff.2.1 12,
    by decide, claim_C10_backoff.2.2 4 (by decide)⟩

/-- Claim C7: for every import, the report's error-message list is exactly
the first 20 row error strings (hence never longer than 20), while the
report's `errors` count is the full number of row errors. -/
theorem claim_C7_error_cap :
    ∀ (rows : List RawRow) (persisted : List Podcast) (ow : Bool) (year : Nat)
      (f : Str → InsertPodcast → Option Podcast),
      (runImport rows persisted ow year f).errorMessages =
        (processRows year rows).2.take 20 ∧
      (runImport rows persisted ow year f).errors = (processRows year rows).2.length ∧
      (runImport rows persisted ow year f).errorMessages.length ≤ 20 := by
  intro rows persisted ow year f
  refine ⟨rfl, rfl, ?_⟩
  show ((processRows year rows).2.take 20).length ≤ 20
  rw [List.length_take]
  exact Nat.min_le_left _ _

theorem digitsVal_append_digit (l : Str) (d : Nat) :
    digitsVal (l ++ [d]) = digitsVal l * 10 + (d - 48) := by
  simp [digitsVal, List.foldl_append]

theorem natStrAux_spec : ∀ (fuel n : Nat), n < 10 ^ (fuel + 1) →
    natStrAux (fuel + 1) n ≠ [] ∧ (∀ c ∈ natStrAux (fuel + 1) n, isDigitCode c = true) ∧
    digitsVal (natStrAux (fuel + 1) n) = n := by
  intro fuel
  induction fuel with
  | zero =>
    intro n hn
    have h10 : n < 10 := by simpa using hn
    refine ⟨by simp [natStrAux, h10], ?_, ?_⟩
    · intro c hc
      simp [natStrAux, h10] at hc
      simp [hc, isDigitCode]
      omega
    · simp [natStrAux, h10, digitsVal]
  | succ f ih =>
    intro n hn
    by_cases h10 : n < 10
    · refine ⟨by simp [natStrAux, h10], ?_, ?_⟩
      · intro c hc
        simp [natStrAux, h10] at hc
        simp [hc, isDigitCode]
        omega
      · simp [natStrAux, h10, digitsVal]
    · have hdiv : n / 10 < 10 ^ (f + 1) := by
        rw [Nat.div_lt_iff_lt_mul (by norm_num)]
        calc n < 10 ^ (f + 1 + 1) := hn
        _ = 10 ^ (f + 1) * 10 := by ring
      obtain ⟨ihne, ihdig, ihval⟩ := ih (n / 10) hdiv
      have hstep : natStrAux (f + 1 + 1) n = natStrAux (f + 1) (n / 10) ++ [48 + n % 10] := by
        simp [natStrAux, h10]
      refine ⟨by simp [hstep], ?_, ?_⟩
      · intro c hc
        rw [hstep, List.mem_append] at hc
        rcases hc with hc | hc
        · exact ihdig c hc
        · simp at hc
          have : n % 10 < 10 := Nat.mod_lt _ (by norm_num)
          simp [hc, isDigitCode]
          omega
      · rw [hstep, digitsVal_append_digit, ihval]
        omega

theorem natStr_spec (n : Nat) :
    natStr n ≠ [] ∧ (∀ c ∈ natStr n, isDigitCode c = true) ∧ digitsVal (natStr n) = n := by
  have h : n < 10 ^ (n + 1) :=
    lt_of_lt_of_le (Nat.lt_pow_self (by norm_num) n)
      (Nat.pow_le_pow_right (by norm_num) (Nat.le_succ n))
  exact natStrAux_spec n n h

theorem ws_of_digit (c : Nat) (h : isDigitCode c = true) : isWsCode c = false := by
  simp [isDigitCode] at h
  simp [isWsCode]
  omega

theorem trimLeft_digits (l : Str) (h : ∀ c ∈ l, isDigitCode c = true) : trimLeft l = l := by
  cases l with
  | nil => rfl
  | cons c t =>
    have hc := ws_of_digit c (h c (by simp))
    simp [trimLeft, List.dropWhile, hc]

theorem takeWhile_eq_self_of_all (p : Nat → Bool) (l : Str) (h : ∀ c ∈ l, p c = true) :
    l.takeWhile p = l := by
  induction l with
  | nil => rfl
  | cons c t ih =>
    have hc := h c (by simp)
    rw [List.takeWhile_cons, hc]
    simp only [if_true]
    rw [ih (fun x hx => h x (by simp [hx]))]

theorem parseIntM_of_digits (l : Str) (hne : l ≠ []) (hdig : ∀ c ∈ l, isDigitCode c = true) :
    parseIntM l = some ((digitsVal l : Nat) : Int) := by
  unfold parseIntM
  rw [trimLeft_digits l hdig]
  cases l with
  | nil => exact absurd rfl hne
  | cons c t =>
    have hc := hdig c (by simp)
    simp only [isDigitCode, Bool.and_eq_true, decide_eq_true_eq] at hc
    have h45 : (c == 45) = false := by simp; omega
    have h43 : (c == 43) = false := by simp; omega
    simp only [h45, h43, Bool.false_eq_true, if_false]
    simp [digitsRun, takeWhile_eq_self_of_all _ _ hdig]

theorem parseIntM_natStr (n : Nat) : parseIntM (natStr n) = some (n : Int) := by
  obtain ⟨hne, hdig, hval⟩ := natStr_spec n
  rw [parseIntM_of_digits _ hne hdig, hval]

/-- Claim C6: for every row whose title and host resolve, the validator
succeeds (no row error), and the record's country defaults to `"Unknown"`,
language to `"English"`, year to the current calendar year (when the year
field is absent or unparseable), and status to `"Active"`. -/
theorem claim_C6_defaults :
    ∀ (year : Nat) (row : RawRow) (t h : Str),
      getColumnValue row titleCandidates = some t →
      getColumnValue row hostCandidates = some h →
      ∃ p, validateRow year row = Except.ok p ∧
        (getColumnValue row countryCandidates = none → p.country = str "Unknown") ∧
        (getColumnValue row languageCandidates = none → p.language = str "English") ∧
        (getColumnValue row yearCandidates = none → p.year = (year : Int)) ∧
        (∀ v, getColumnValue row yearCandidates = some v → parseIntM v = none →
          p.year = (year : Int)) ∧
        (getColumnValue row statusCandidates = none → p.status = str "Active") := by
  intro year row t h ht hh
  simp only [validateRow]
  rw [ht, hh]
  refine ⟨_, rfl, ?_, ?_, ?_, ?_, ?_⟩
  · intro hc
    simp [hc]
  · intro hl
    simp [hl]
  · intro hy
    simp [hy, parseIntM_natStr]
  · intro v hv hnone
    simp [hv, hnone]
  · intro hs
    simp [hs]

theorem claim_C6_witness :
    getColumnValue [(str "title", str "W"), (str "host", str "J")] titleCandidates =
      some (str "W") ∧
    getColumnValue [(str "title", str "W"), (str "host", str "J")] hostCandidates =
      some (str "J") ∧
    ∃ p, validateRow 2026 [(str "title", str "W"), (str "host", str "J")] = Except.ok p ∧
      (getColumnValue [(str "title", str "W"), (str "host", str "J")] countryCandidates =
        none → p.country = str "Unknown") ∧
      (getColumnValue [(str "title", str "W"), (str "host", str "J")] languageCandidates =
        none → p.language = str "English") ∧
      (getColumnValue [(str "title", str "W"), (str "host", str "J")] yearCandidates =
        none → p.year = (2026 : Int)) ∧
      (∀ v, getColumnValue [(str "title", str "W"), (str "host", str "J")] yearCandidates =
        some v → parseIntM v = none → p.year = (2026 : Int)) ∧
      (getColumnValue [(str "title", str "W"), (str "host", str "J")] statusCandidates =
        none → p.status = str "Active") :=
  ⟨by decide, by decide,
    claim_C6_defaults 2026 [(str "title", str "W"), (str "host", str "J")]
      (str "W") (str "J") (by decide) (by decide)⟩

/-- Claim C5: a row whose resolved title or host is missing contributes no
record and exactly one error string containing its row number, and the
remaining rows are still processed. -/
theorem claim_C5_row_error :
    ∀ (year k : Nat) (row : RawRow) (rest : List RawRow),
      (getColumnValue row titleCandidates = none ∨
       getColumnValue row hostCandidates = none) →
      ∃ e, validateRow year row = Except.error e ∧
        processRowsAux year k (row :: rest) =
          ((processRowsAux year (k + 1) rest).1,
           (str "Row " ++ natStr (k + 1) ++ str ": " ++ e) ::
             (processRowsAux year (k + 1) rest).2) ∧
        containsSeq (natStr (k + 1)) (str "Row " ++ natStr (k + 1) ++ str ": " ++ e) =
          true := by
  intro year k row rest h
  have main : ∃ e, validateRow year row = Except.error e := by
    cases ht : getColumnValue row titleCandidates with
    | none => exact ⟨_, by simp only [validateRow]; rw [ht]⟩
    | some t =>
      rcases h with h | h
      · rw [ht] at h
        exact absurd h (by simp)
      · exact ⟨_, by simp only [validateRow]; rw [ht, h]⟩
  obtain ⟨e, hval⟩ := main
  refine ⟨e, hval, ?_, ?_⟩
  · simp only [processRowsAux, hval]
  · have hcont := containsSeq_append (str "Row ") (natStr (k + 1)) (str ": " ++ e)
    simpa [List.append_assoc] using hcont

theorem claim_C5_witness :
    (getColumnValue [(str "Podcast Title", str "Wine Talk"), (str "host", str "")]
        titleCandidates = none ∨
     getColumnValue [(str "Podcast Title", str "Wine Talk"), (str "host", str "")]
        hostCandidates = none) ∧
    ∃ e, validateRow 2026 [(str "Podcast Title", str "Wine Talk"), (str "host", str "")] =
        Except.error e ∧
      processRowsAux 2026 0 [[(str "Podcast Title", str "Wine Talk"), (str "host", str "")]] =
        ((processRowsAux 2026 1 []).1,
         (str "Row " ++ natStr 1 ++ str ": " ++ e) :: (processRowsAux 2026 1 []).2) ∧
      containsSeq (natStr 1) (str "Row " ++ natStr 1 ++ str ": " ++ e) = true :=
  ⟨Or.inr (by decide),
   claim_C5_row_error 2026 0
     [(str "Podcast Title", str "Wine Talk"), (str "host", str "")] []
     (Or.inr (by decide))⟩

theorem planMerge_new_eq_filter (m : List (Str × Str)) (ow : Bool)
    (pods : List InsertPodcast) :
    (planMerge m ow pods).1 =
      pods.filter (fun r => (mapGet m (createDeduplicationKey r.title r.host)).isNone) := by
  induction pods with
  | nil => rfl
  | cons p rest ih =>
    simp only [planMerge]
    cases hm : mapGet m (createDeduplicationKey p.title p.host) with
    | some existingId => cases ow <;> simp [hm, ih, List.filter_cons]
    | none => simp [hm, ih, List.filter_cons]

theorem planMerge_skip_of_false (m : List (Str × Str)) (pods : List InsertPodcast) :
    (planMerge m false pods).2.1 =
      pods.filter (fun r => (mapGet m (createDeduplicationKey r.title r.host)).isSome) := by
  induction pods with
  | nil => rfl
  | cons p rest ih =>
    simp only [planMerge]
    cases hm : mapGet m (createDeduplicationKey p.title p.host) with
    | some existingId => simp [hm, ih, List.filter_cons]
    | none => simp [hm, ih, List.filter_cons]

theorem planMerge_upd_of_false (m : List (Str × Str)) (pods : List InsertPodcast) :
    (planMerge m false pods).2.2 = [] := by
  induction pods with
  | nil => rfl
  | cons p rest ih =>
    simp only [planMerge]
    cases hm : mapGet m (createDeduplicationKey p.title p.host) with
    | some existingId => simpa [hm] using ih
    | none => simpa [hm] using ih

theorem planMerge_skip_of_true (m : List (Str × Str)) (pods : List InsertPodcast) :
    (planMerge m true pods).2.1 = [] := by
  induction pods with
  | nil => rfl
  | cons p rest ih =>
    simp only [planMerge]
    cases hm : mapGet m (createDeduplicationKey p.title p.host) with
    | some existingId => simpa [hm] using ih
    | none => simpa [hm] using ih

theorem planMerge_upd_of_true (m : List (Str × Str)) (pods : List InsertPodcast) :
    (planMerge m true pods).2.2 =
      pods.filterMap
        (fun r => (mapGet m (createDeduplicationKey r.title r.host)).map (fun i => (r, i))) := by
  induction pods with
  | nil => rfl
  | cons p rest ih =>
    simp only [planMerge]
    cases hm : mapGet m (createDeduplicationKey p.title p.host) with
    | some existingId => simp [hm, ih, List.filterMap_cons]
    | none => simp [hm, ih, List.filterMap_cons]

/-- Claim C4: a validated record whose identity key matches a persisted
record goes to `duplicatesSkipped` (and nowhere else) when overwrite is
off, and to `podcastsToUpdate` with the matched id (and nowhere else) when
overwrite is on. -/
theorem claim_C4_duplicate_routing :
    ∀ (m : List (Str × Str)) (pods : List InsertPodcast) (p : InsertPodcast) (i : Str),
      p ∈ pods → mapGet m (createDeduplicationKey p.title p.host) = some i →
      (p ∈ (planMerge m false pods).2.1 ∧ p ∉ (planMerge m false pods).1 ∧
        (planMerge m false pods).2.2 = []) ∧
      ((p, i) ∈ (planMerge m true pods).2.2 ∧ p ∉ (planMerge m true pods).1 ∧
        (planMerge m true pods).2.1 = []) := by
  intro m pods p i hmem hkey
  refine ⟨⟨?_, ?_, planMerge_upd_of_false m pods⟩,
          ⟨?_, ?_, planMerge_skip_of_true m pods⟩⟩
  · rw [planMerge_skip_of_false]
    exact List.mem_filter.mpr ⟨hmem, by simp [hkey]⟩
  · rw [planMerge_new_eq_filter]
    intro hc
    have := (List.mem_filter.mp hc).2
    simp [hkey] at this
  · rw [planMerge_upd_of_true]
    exact List.mem_filterMap.mpr ⟨p, hmem, by simp [hkey]⟩
  · rw [planMerge_new_eq_filter]
    intro hc
    have := (List.mem_filter.mp hc).2
    simp [hkey] at this

theorem claim_C4_witness :
    (podA ∈ [podA] ∧
      mapGet [(createDeduplicationKey podA.title podA.host, str "p1")]
        (createDeduplicationKey podA.title podA.host) = some (str "p1")) ∧
    (podA ∈ (planMerge [(createDeduplicationKey podA.title podA.host, str "p1")] false
        [podA]).2.1 ∧
      podA ∉ (planMerge [(createDeduplicationKey podA.title podA.host, str "p1")] false
        [podA]).1 ∧
      (planMerge [(createDeduplicationKey podA.title podA.host, str "p1")] false
        [podA]).2.2 = []) ∧
    ((podA, str "p1") ∈ (planMerge [(createDeduplicationKey podA.title podA.host, str "p1")]
        true [podA]).2.2 ∧
      podA ∉ (planMerge [(createDeduplicationKey podA.title podA.host, str "p1")] true
        [podA]).1 ∧
      (planMerge [(createDeduplicationKey podA.title podA.host, str "p1")] true
        [podA]).2.1 = []) :=
  ⟨⟨by decide, by decide⟩,
    claim_C4_duplicate_routing
      [(createDeduplicationKey podA.title podA.host, str "p1")] [podA] podA (str "p1")
      (by decide) (by decide)⟩

/-- Claim C9: two validated records with equal identity keys not present
among the persisted keys are both routed to `newPodcasts` — the pipeline
performs no within-batch deduplication before the bulk create. -/
theorem claim_C9_no_within_batch_dedup :
    ∀ (m : List (Str × Str)) (ow : Bool) (l1 l2 l3 : List InsertPodcast)
      (p q : InsertPodcast),
      createDeduplicationKey p.title p.host = createDeduplicationKey q.title q.host →
      mapGet m (createDeduplicationKey p.title p.host) = none →
      mapGet m (createDeduplicationKey q.title q.host) = none →
      ∃ n1 n2 n3, (planMerge m ow (l1 ++ p :: (l2 ++ q :: l3))).1 =
        n1 ++ p :: (n2 ++ q :: n3) := by
  intro m ow l1 l2 l3 p q hk hp hq
  rw [planMerge_new_eq_filter]
  refine ⟨l1.filter (fun r => (mapGet m (createDeduplicationKey r.title r.host)).isNone),
          l2.filter (fun r => (mapGet m (createDeduplicationKey r.title r.host)).isNone),
          l3.filter (fun r => (mapGet m (createDeduplicationKey r.title r.host)).isNone), ?_⟩
  simp [List.filter_append, List.filter_cons, hp, hq]

theorem claim_C9_witness :
    (createDeduplicationKey podA.title podA.host =
      createDeduplicationKey podA.title podA.host ∧
     mapGet [] (createDeduplicationKey podA.title podA.host) = none) ∧
    ∃ n1 n2 n3, (planMerge [] true ([] ++ podA :: ([] ++ podA :: []))).1 =
      n1 ++ podA :: (n2 ++ podA :: n3) :=
  ⟨⟨rfl, by decide⟩,
    claim_C9_no_within_batch_dedup [] true [] [] [] podA podA rfl (by decide) (by decide)⟩

/-- Claim C8: when the storage update of one matched record fails (returns
nothing), that record is omitted from the updated list while every other
entry of the batch is still attempted; the loop never aborts. -/
theorem claim_C8_update_failure_isolated :
    ∀ (f : Str → InsertPodcast → Option Podcast) (l1 l2 : List (InsertPodcast × Str))
      (p : InsertPodcast) (i : Str),
      f i p = none →
      applyUpdates f (l1 ++ (p, i) :: l2) = applyUpdates f l1 ++ applyUpdates f l2 := by
  intro f l1 l2 p i hf
  induction l1 with
  | nil => simp [applyUpdates, hf]
  | cons x t ih =>
    cases x with
    | mk xp xid =>
      simp only [List.cons_append, applyUpdates]
      cases f xid xp <;> simp [ih]

theorem claim_C8_witness :
    (fun (_ : Str) (_ : InsertPodcast) => (none : Option Podcast)) (str "p1") podA = none ∧
    applyUpdates (fun _ _ => (none : Option Podcast)) ([] ++ (podA, str "p1") :: []) =
      applyUpdates (fun _ _ => (none : Option Podcast)) [] ++
      applyUpdates (fun _ _ => (none : Option Podcast)) [] :=
  ⟨rfl, claim_C8_update_failure_isolated (fun _ _ => none) [] [] podA (str "p1") rfl⟩

theorem processRowsAux_length (year : Nat) :
    ∀ (rows : List RawRow) (k : Nat),
      (processRowsAux year k rows).1.length + (processRowsAux year k rows).2.length =
        rows.length := by
  intro rows
  induction rows with
  | nil => intro k; rfl
  | cons r rest ih =>
    intro k
    simp only [processRowsAux]
    cases hv : validateRow year r with
    | ok p =>
      have := ih (k + 1)
      simp [hv]
      omega
    | error e =>
      have := ih (k + 1)
      simp [hv]
      omega

theorem planMerge_length (m : List (Str × Str)) (ow : Bool) :
    ∀ (pods : List InsertPodcast),
      (planMerge m ow pods).1.length + (planMerge m ow pods).2.1.length +
        (planMerge m ow pods).2.2.length = pods.length := by
  intro pods
  induction pods with
  | nil => rfl
  | cons p rest ih =>
    simp only [planMerge]
    cases hm : mapGet m (createDeduplicationKey p.title p.host) with
    | some existingId => cases ow <;> simp <;> omega
    | none => simp; omega

theorem applyUpdates_length_of_success (f : Str → InsertPodcast → Option Podcast)
    (hf : ∀ i p, (f i p).isSome = true) :
    ∀ (u : List (InsertPodcast × Str)), (applyUpdates f u).length = u.length := by
  intro u
  induction u with
  | nil => rfl
  | cons x t ih =>
    cases x with
    | mk xp xid =>
      cases hx : f xid xp with
      | none =>
        have := hf xid xp
        rw [hx] at this
        simp at this
      | some v => simp [applyUpdates, hx, ih]

/-- Claim C1 (amended): when every per-record update performed by the
overwrite path succeeds, the report's counts satisfy
`imported + updated + duplicatesSkipped + errors = totalRows`.  (In this
model every CSV data row is classified exactly once by construction: the
validator is total, so the original claim's row-classification hypothesis
is always satisfied.) -/
theorem claim_C1_amended_count_invariant :
    ∀ (rows : List RawRow) (persisted : List Podcast) (ow : Bool) (year : Nat)
      (f : Str → InsertPodcast → Option Podcast),
      (∀ i p, (f i p).isSome = true) →
      (runImport rows persisted ow year f).imported +
        (runImport rows persisted ow year f).updated +
        (runImport rows persisted ow year f).duplicatesSkipped +
        (runImport rows persisted ow year f).errors =
      (runImport rows persisted ow year f).totalRows := by
  intro rows persisted ow year f hf
  simp only [runImport, List.length_map]
  have hrows := processRowsAux_length year rows 0
  have hplan := planMerge_length
    ((findPodcastsByTitleHost persisted
        ((processRows year rows).1.map (fun p => (p.title, p.host)))).map
      (fun pod => (createDeduplicationKey pod.title pod.host, pod.id)))
    ow (processRows year rows).1
  have hupd :
      (if ow = true ∧ 0 < (planMerge
            ((findPodcastsByTitleHost persisted
                ((processRows year rows).1.map (fun p => (p.title, p.host)))).map
              (fun pod => (createDeduplicationKey pod.title pod.host, pod.id)))
            ow (processRows year rows).1).2.2.length
        then applyUpdates f
          ((planMerge
            ((findPodcastsByTitleHost persisted
                ((processRows year rows).1.map (fun p => (p.title, p.host)))).map
              (fun pod => (createDeduplicationKey pod.title pod.host, pod.id)))
            ow (processRows year rows).1).2.2)
        else []).length =
      (planMerge
        ((findPodcastsByTitleHost persisted
            ((processRows year rows).1.map (fun p => (p.title, p.host)))).map
          (fun pod => (createDeduplicationKey pod.title pod.host, pod.id)))
        ow (processRows year rows).1).2.2.length := by
    split
    · exact applyUpdates_length_of_success f hf _
    · next hneg =>
      rcases Decidable.not_and_iff_or_not.mp hneg with how | hlen
      · have how' : ow = false := by
          cases ow
          · rfl
          · exact absurd rfl how
        rw [how', planMerge_upd_of_false]
        rfl
      · simp only [List.length_nil]
        omega
  rw [hupd]
  simp only [processRows] at *
  omega

theorem claim_C1_witness :
    (∀ (i : Str) (p : InsertPodcast),
      ((fun (_ : Str) (q : InsertPodcast) => some (toPodcast q)) i p).isSome = true) ∧
    (runImport [[(str "title", str "Wine Talk"), (str "host", str "Jane")],
        [(str "nothing", str "x")]]
      [existingPod] true 2026 (fun _ q => some (toPodcast q))).imported +
      (runImport [[(str "title", str "Wine Talk"), (str "host", str "Jane")],
          [(str "nothing", str "x")]]
        [existingPod] true 2026 (fun _ q => some (toPodcast q))).updated +
      (runImport [[(str "title", str "Wine Talk"), (str "host", str "Jane")],
          [(str "nothing", str "x")]]
        [existingPod] true 2026 (fun _ q => some (toPodcast q))).duplicatesSkipped +
      (runImport [[(str "title", str "Wine Talk"), (str "host", str "Jane")],
          [(str "nothing", str "x")]]
        [existingPod] true 2026 (fun _ q => some (toPodcast q))).errors =
      (runImport [[(str "title", str "Wine Talk"), (str "host", str "Jane")],
          [(str "nothing", str "x")]]
        [existingPod] true 2026 (fun _ q => some (toPodcast q))).totalRows :=
  ⟨fun _ _ => rfl,
    claim_C1_amended_count_invariant
      [[(str "title", str "Wine Talk"), (str "host", str "Jane")],
       [(str "nothing", str "x")]]
      [existingPod] true 2026 (fun _ q => some (toPodcast q)) (fun _ _ => rfl)⟩

/-- Claim C1 counterexample: one row that validates and matches a
persisted record, overwrite on, and the per-record storage update fails —
the report counts 0 imported, 0 updated, 0 skipped, 0 errors against
1 total row, so the claimed sum fails even though the single row was
classified exactly once (it validated). -/
theorem claim_C1_counterexample :
    (runImport [[(str "title", str "Wine Talk"), (str "host", str "Jane")]]
        [existingPod] true 2026 (fun _ _ => none)).imported +
      (runImport [[(str "title", str "Wine Talk"), (str "host", str "Jane")]]
        [existingPod] true 2026 (fun _ _ => none)).updated +
      (runImport [[(str "title", str "Wine Talk"), (str "host", str "Jane")]]
        [existingPod] true 2026 (fun _ _ => none)).duplicatesSkipped +
      (runImport [[(str "title", str "Wine Talk"), (str "host", str "Jane")]]
        [existingPod] true 2026 (fun _ _ => none)).errors ≠
    (runImport [[(str "title", str "Wine Talk"), (str "host", str "Jane")]]
        [existingPod] true 2026 (fun _ _ => none)).totalRows := by
  decide

/-- Claim C3 counterexample: with row `\x7btitle: "A", name: "B"\x7d` and
candidates `["Title", "name"]`, the resolver returns `"A"` — the
case-insensitive match of the **first** candidate — even though the later
candidate `"name"` has an exact-key non-empty value `"B"`.  The claimed
"exact pass over the whole candidate list first" behaviour
(`getColumnValueSpec`) would return `"B"`. -/
theorem claim_C3_counterexample :
    getColumnValue [(str "title", str "A"), (str "name", str "B")]
      [str "Title", str "name"] = some (str "A") ∧
    getColumnValueSpec [(str "title", str "A"), (str "name", str "B")]
      [str "Title", str "name"] = some (str "B") ∧
    str "A" ≠ str "B" :=
  ⟨by decide, by decide, by decide⟩

/-- Claim C3 (amended): the resolver walks candidates in order and, for
each candidate, tries the exact key match and then — before looking at any
later candidate — the case-insensitive fallback; it returns the first
candidate's success (`List.findSome?` over `tryCandidate`); an exact
non-empty match on the head candidate always wins; and when every
candidate fails the resolver returns no value rather than an error. -/
theorem claim_C3_amended_resolver :
    (∀ (row : RawRow) (names : List Str),
      getColumnValue row names = names.findSome? (tryCandidate row)) ∧
    (∀ (row : RawRow) (n : Str) (rest : List Str) (v : Str),
      lookupRow row n = some v → trimStr v ≠ [] →
      getColumnValue row (n :: rest) = some (trimStr v)) ∧
    (∀ (row : RawRow) (names : List Str),
      (∀ n ∈ names, tryCandidate row n = none) → getColumnValue row names = none) := by
  refine ⟨?_, ?_, ?_⟩
  · intro row names
    induction names with
    | nil => rfl
    | cons n rest ih =>
      simp only [getColumnValue, List.findSome?_cons]
      cases tryCandidate row n <;> simp [ih]
  · intro row n rest v hv hne
    have htc : tryCandidate row n = some (trimStr v) := by
      simp only [tryCandidate, hv]
      rw [if_pos hne]
    simp [getColumnValue, htc]
  · intro row names h
    induction names with
    | nil => rfl
    | cons n rest ih =>
      have hn := h n (by simp)
      simp only [getColumnValue, hn]
      exact ih (fun x hx => h x (by simp [hx]))

theorem claim_C3_witness :
    getColumnValue [(str "title", str "A")] [str "title", str "name"] =
      some (trimStr (str "A")) :=
  claim_C3_amended_resolver.2.1 [(str "title", str "A")] (str "title") [str "name"]
    (str "A") (by decide) (by decide)

theorem lowerCode_idem (c : Nat) : lowerCode (lowerCode c) = lowerCode c := by
  unfold lowerCode
  by_cases h : 65 ≤ c ∧ c ≤ 90
  · rw [if_pos h, if_neg (by omega)]
  · rw [if_neg h, if_neg h]

theorem trimLeft_idem (s : Str) : trimLeft (trimLeft s) = trimLeft s :=
  List.dropWhile_idempotent isWsCode s

theorem dropWhile_suffix_decomp (p : Nat → Bool) :
    ∀ (l : Str), ∃ pre, l = pre ++ l.dropWhile p := by
  intro l
  induction l with
  | nil => exact ⟨[], rfl⟩
  | cons c t ih =>
    by_cases hp : p c = true
    · obtain ⟨pre, hpre⟩ := ih
      refine ⟨c :: pre, ?_⟩
      rw [List.dropWhile_cons, if_pos hp, List.cons_append, ← hpre]
    · refine ⟨[], ?_⟩
      rw [List.dropWhile_cons, if_neg hp, List.nil_append]

theorem ws_head_false_of_trimLeft_fixed (l : Str) (h : trimLeft l = l) :
    ∀ c, l.head? = some c → isWsCode c = false := by
  intro c hc
  cases l with
  | nil => simp at hc
  | cons a t =>
    have hac : a = c := by simpa using hc
    by_contra hcontra
    have hws : isWsCode a = true := by
      rw [hac]
      cases hx : isWsCode c
      · exact absurd hx hcontra
      · rfl
    rw [trimLeft, List.dropWhile_cons, if_pos hws] at h
    have hlen := congrArg List.length h
    have hle : (List.dropWhile isWsCode t).length ≤ t.length :=
      (List.dropWhile_sublist _).length_le
    simp at hlen
    omega

theorem trimLeft_eq_self_of_head (l : Str)
    (h : ∀ c, l.head? = some c → isWsCode c = false) : trimLeft l = l := by
  cases l with
  | nil => rfl
  | cons a t =>
    have := h a rfl
    rw [trimLeft, List.dropWhile_cons, if_neg (by simp [this])]

theorem trimLeft_trimRight (u : Str) (hu : trimLeft u = u) :
    trimLeft (trimRight u) = trimRight u := by
  apply trimLeft_eq_self_of_head
  intro c hc
  have hw : trimLeft u.reverse ≠ [] := by
    intro h0
    rw [trimRight, h0] at hc
    simp at hc
  obtain ⟨pre, hpre⟩ := dropWhile_suffix_decomp isWsCode u.reverse
  have h1 : (trimRight u).head? = (trimLeft u.reverse).getLast? :=
    List.head?_reverse _
  have h2 : (trimLeft u.reverse).getLast? = u.reverse.getLast? := by
    cases hgl : (trimLeft u.reverse).getLast? with
    | none =>
      exact absurd (List.getLast?_eq_none_iff.mp hgl) hw
    | some x =>
      conv_rhs => rw [hpre]
      rw [List.getLast?_append]
      rw [trimLeft] at hgl
      rw [hgl]
      rfl
  have h3 : u.reverse.getLast? = u.head? := List.getLast?_reverse u
  have hcu : u.head? = some c := by
    rw [← h3, ← h2, ← h1]
    exact hc
  exact ws_head_false_of_trimLeft_fixed u hu c hcu

theorem trimRight_idem (u : Str) : trimRight (trimRight u) = trimRight u := by
  show (trimLeft ((trimLeft u.reverse).reverse).reverse).reverse = trimRight u
  rw [List.reverse_reverse, trimLeft_idem]
  rfl

theorem trimStr_idem (s : Str) : trimStr (trimStr s) = trimStr s := by
  show trimRight (trimLeft (trimRight (trimLeft s))) = trimRight (trimLeft s)
  rw [trimLeft_trimRight (trimLeft s) (trimLeft_idem s), trimRight_idem]

theorem mem_trimLeft (s : Str) (c : Nat) (h : c ∈ trimLeft s) : c ∈ s :=
  (List.dropWhile_sublist _).subset h

theorem mem_trimRight (s : Str) (c : Nat) (h : c ∈ trimRight s) : c ∈ s := by
  rw [trimRight, List.mem_reverse] at h
  have := mem_trimLeft s.reverse c h
  rwa [List.mem_reverse] at this

theorem mem_trimStr (s : Str) (c : Nat) (h : c ∈ trimStr s) : c ∈ s :=
  mem_trimLeft s c (mem_trimRight (trimLeft s) c h)

theorem mem_collapseWs : ∀ (l : Str) (c : Nat), c ∈ collapseWs l → c = 32 ∨ c ∈ l
  | [], c, h => by simp [collapseWs] at h
  | [d], c, h => by
    by_cases hd : isWsCode d = true
    · simp [collapseWs, hd] at h
      exact Or.inl h
    · simp [collapseWs, hd] at h
      simp [h]
  | a :: b :: rest, c, h => by
    by_cases ha : isWsCode a = true
    · by_cases hb : isWsCode b = true
      · simp only [collapseWs, ha, hb, if_true] at h
        rcases mem_collapseWs (b :: rest) c h with h32 | hm
        · exact Or.inl h32
        · exact Or.inr (List.mem_cons_of_mem a hm)
      · simp only [collapseWs, ha, hb, if_true, Bool.false_eq_true, if_false,
          List.mem_cons] at h
        rcases h with h32 | h'
        · exact Or.inl h32
        · rcases mem_collapseWs (b :: rest) c h' with h32 | hm
          · exact Or.inl h32
          · exact Or.inr (List.mem_cons_of_mem a hm)
    · simp only [collapseWs, ha, Bool.false_eq_true, if_false, List.mem_cons] at h
      rcases h with rfl | h'
      · exact Or.inr (List.mem_cons_self c (b :: rest))
      · rcases mem_collapseWs (b :: rest) c h' with h32 | hm
        · exact Or.inl h32
        · exact Or.inr (List.mem_cons_of_mem a hm)

theorem ws_mem_collapseWs : ∀ (l : Str) (c : Nat),
    c ∈ collapseWs l → isWsCode c = true → c = 32
  | [], c, h, _ => by simp [collapseWs] at h
  | [d], c, h, hws => by
    by_cases hd : isWsCode d = true
    · simpa [collapseWs, hd] using h
    · simp [collapseWs, hd] at h
      rw [h] at hws
      exact absurd hws (by simp [hd])
  | a :: b :: rest, c, h, hws => by
    by_cases ha : isWsCode a = true
    · by_cases hb : isWsCode b = true
      · simp only [collapseWs, ha, hb, if_true] at h
        exact ws_mem_collapseWs (b :: rest) c h hws
      · simp only [collapseWs, ha, hb, if_true, Bool.false_eq_true, if_false,
          List.mem_cons] at h
        rcases h with h32 | h'
        · exact h32
        · exact ws_mem_collapseWs (b :: rest) c h' hws
    · simp only [collapseWs, ha, Bool.false_eq_true, if_false, List.mem_cons] at h
      rcases h with rfl | h'
      · exact absurd hws (by simp [ha])
      · exact ws_mem_collapseWs (b :: rest) c h' hws

theorem collapseWs_eq_self : ∀ (l : Str), noDoubleWs l = true →
    (∀ c ∈ l, isWsCode c = true → c = 32) → collapseWs l = l
  | [], _, _ => rfl
  | [d], _, h2 => by
    by_cases hd : isWsCode d = true
    · have := h2 d (by simp) hd
      simp [collapseWs, hd, this]
    · simp [collapseWs, hd]
  | a :: b :: rest, h1, h2 => by
    have h1' : (isWsCode a && isWsCode b) = false ∧ noDoubleWs (b :: rest) = true := by
      simp only [noDoubleWs, Bool.and_eq_true, Bool.not_eq_true'] at h1
      exact ⟨h1.1, h1.2⟩
    obtain ⟨hab, hrest⟩ := h1'
    have hrec := collapseWs_eq_self (b :: rest) hrest
      (fun c hc hw => h2 c (by simp [List.mem_cons] at hc ⊢; tauto) hw)
    by_cases ha : isWsCode a = true
    · have hb : isWsCode b = false := by
        cases hx : isWsCode b
        · rfl
        · rw [ha, hx] at hab
          simp at hab
      have ha32 := h2 a (by simp) ha
      rw [show collapseWs (a :: b :: rest) = 32 :: collapseWs (b :: rest) from by
        simp [collapseWs, ha, hb], hrec, ha32]
    · rw [show collapseWs (a :: b :: rest) = a :: collapseWs (b :: rest) from by
        simp [collapseWs, ha], hrec]

theorem strLower_eq_self (l : Str) (h : ∀ c ∈ l, lowerCode c = c) : strLower l = l := by
  induction l with
  | nil => rfl
  | cons c t ih =>
    have hc := h c (by simp)
    have ht := ih (fun x hx => h x (by simp [hx]))
    simp only [strLower, List.map_cons] at ht ⊢
    rw [hc, ht]

theorem stripPunct_eq_self (l : Str) (h : ∀ c ∈ l, isPunctCode c = false) :
    stripPunct l = l :=
  List.filter_eq_self.mpr (fun a ha => by simp [h a ha])

theorem stripArticle_eq_self (l : Str) (h : hasLeadingArticle l = false) :
    stripArticle l = l := by
  rw [hasLeadingArticle, Bool.or_eq_false_iff, Bool.or_eq_false_iff] at h
  obtain ⟨⟨h1, h2⟩, h3⟩ := h
  unfold stripArticle
  simp only [h1, h2, h3, Bool.false_eq_true, if_false]

theorem mem_stripPunct (l : Str) (c : Nat) (h : c ∈ stripPunct l) : c ∈ l :=
  (List.filter_sublist l).subset h

theorem punct_false_of_mem_stripPunct (l : Str) (c : Nat) (h : c ∈ stripPunct l) :
    isPunctCode c = false := by
  have := (List.mem_filter.mp h).2
  simpa using this

theorem mem_stripArticle (l : Str) (c : Nat) (h : c ∈ stripArticle l) : c ∈ l := by
  unfold stripArticle at h
  split at h
  · exact List.drop_subset _ _ ((List.dropWhile_sublist _).subset h)
  · split at h
    · exact List.drop_subset _ _ ((List.dropWhile_sublist _).subset h)
    · split at h
      · exact List.drop_subset _ _ ((List.dropWhile_sublist _).subset h)
      · exact h

theorem mem_normalizeStr_core (s : Str) (c : Nat) (h : c ∈ normalizeStr s) :
    c ∈ collapseWs (trimStr (strLower s)) := by
  unfold normalizeStr at h
  exact mem_stripPunct _ _ (mem_stripArticle _ _ (mem_trimStr _ _ h))

theorem normalizeStr_ws32 (s : Str) (c : Nat) (h : c ∈ normalizeStr s)
    (hws : isWsCode c = true) : c = 32 :=
  ws_mem_collapseWs _ c (mem_normalizeStr_core s c h) hws

theorem normalizeStr_lower_fixed (s : Str) (c : Nat) (h : c ∈ normalizeStr s) :
    lowerCode c = c := by
  rcases mem_collapseWs _ c (mem_normalizeStr_core s c h) with h32 | hm
  · rw [h32]
    decide
  · have hmem := mem_trimStr _ c hm
    rw [strLower] at hmem
    obtain ⟨b, _, hbc⟩ := List.mem_map.mp hmem
    rw [← hbc]
    exact lowerCode_idem b

theorem normalizeStr_punct_false (s : Str) (c : Nat) (h : c ∈ normalizeStr s) :
    isPunctCode c = false := by
  unfold normalizeStr at h
  exact punct_false_of_mem_stripPunct _ _ (mem_stripArticle _ _ (mem_trimStr _ _ h))

/-- Claim C2 (amended): the normalization of `createDeduplicationKey` is
idempotent on every input whose normalized form has no two adjacent
whitespace characters and does not start with another article — deleting
punctuation **after** collapsing whitespace can leave a double space, and
only one leading article is stripped per pass, so a second pass can differ
exactly in those two situations. -/
theorem claim_C2_amended_idempotence :
    ∀ s : Str, noDoubleWs (normalizeStr s) = true →
      hasLeadingArticle (normalizeStr s) = false →
      normalizeStr (normalizeStr s) = normalizeStr s := by
  intro s h1 h2
  have hlow : strLower (normalizeStr s) = normalizeStr s :=
    strLower_eq_self _ (fun c hc => normalizeStr_lower_fixed s c hc)
  have htrim : trimStr (normalizeStr s) = normalizeStr s := by
    show trimStr (normalizeStr s) = normalizeStr s
    unfold normalizeStr
    exact trimStr_idem _
  have hcoll : collapseWs (normalizeStr s) = normalizeStr s :=
    collapseWs_eq_self _ h1 (fun c hc hw => normalizeStr_ws32 s c hc hw)
  have hpunct : stripPunct (normalizeStr s) = normalizeStr s :=
    stripPunct_eq_self _ (fun c hc => normalizeStr_punct_false s c hc)
  have hart : stripArticle (normalizeStr s) = normalizeStr s :=
    stripArticle_eq_self _ h2
  conv_lhs => rw [normalizeStr]
  rw [hlow, htrim, hcoll, hpunct, hart, htrim]

/-- Claim C2 counterexample: `"x , y"` normalizes to `"x␣␣y"` (the comma
is deleted after whitespace has been collapsed, leaving a double space),
and a second normalization collapses it to `"x y"`, so
`normalize(normalize(x)) ≠ normalize(x)`. -/
theorem claim_C2_counterexample :
    normalizeStr (normalizeStr (str "x , y")) ≠ normalizeStr (str "x , y") := by
  decide

theorem claim_C2_witness :
    (noDoubleWs (normalizeStr (str "The Wine Hour")) = true ∧
     hasLeadingArticle (normalizeStr (str "The Wine Hour")) = false) ∧
    normalizeStr (normalizeStr (str "The Wine Hour")) =
      normalizeStr (str "The Wine Hour") :=
  ⟨⟨by decide, by decide⟩,
    claim_C2_amended_idempotence (str "The Wine Hour") (by decide) (by decide)⟩
